import Mathlib

/-!
Shallow embedding of the code-brick CLI (the `save`, `clean`, `export` and
`import` commands of `src/commands`, together with the storage layer of
`src/lib/storage.ts` that they call), with theorems checking the
specification's claims against it.

Modelling conventions:
* file contents are `List Char` (the commands read files as UTF-8 strings);
* paths and names are `String`;
* the persisted state (the `store.json` registry and the `templates/<name>/`
  directories, each holding a `brick.json` metadata file next to the template
  files) is an explicit `FsState` value threaded through every command;
* interactive prompts are oracle parameters of type `PRes`, whose `cancel`
  constructor models the user cancelling the prompt;
* external collaborators (the `fast-glob` matcher, the regex engine used for
  import-stripping, the dependency detector) are oracle parameters: a glob
  call becomes the list it returned, a regex becomes the pure per-line
  predicate `RegExp.test` denotes.
-/

namespace CodeBrick

/-- JS string comparison (`Array.prototype.sort`'s default comparator restricted
to the path strings compared here) is lexicographic over code units; modelled
over the scalar values of the chars. -/
def lexLe : List Char → List Char → Bool
  | [], _ => true
  | _ :: _, [] => false
  | a :: as, b :: bs => if a.toNat = b.toNat then lexLe as bs else decide (a.toNat < b.toNat)

/-- Lexicographic `≤` on strings, as used by `files.sort()` in `getFilesRecursive`. -/
def strLe (a b : String) : Bool := lexLe a.data b.data

/-- One insertion step of a sort by `strLe`. -/
def insertSorted (s : String) : List String → List String
  | [] => [s]
  | t :: ts => if strLe s t then s :: t :: ts else t :: insertSorted s ts

/-- `files.sort()` of `getFilesRecursive`: sorting by the lexicographic order. -/
def sortStrings (l : List String) : List String := l.foldr insertSorted []

/-- A list of strings is in ascending lexicographic order. -/
def isSortedStr : List String → Bool
  | [] => true
  | [_] => true
  | a :: b :: t => strLe a b && isSortedStr (b :: t)

/-- `s.startsWith(pre)` over the underlying char list. -/
def strStartsWith (s pre : String) : Bool := decide (s.data.take pre.data.length = pre.data)

/-- `s.slice(n)` over the underlying char list. -/
def strDrop (s : String) (n : Nat) : String := String.mk (s.data.drop n)

/-! ### The line-filtering core of `cleanFileContent` (clean.ts 147-214) -/

/-- Helper for `splitNl`: prepend a char to the first chunk. -/
def consHead (c : Char) : List (List Char) → List (List Char)
  | [] => [[c]]
  | l :: ls => (c :: l) :: ls

/-- `content.split("\n")` (clean.ts 156). -/
def splitNl : List Char → List (List Char)
  | [] => [[]]
  | c :: cs => if c = '\n' then [] :: splitNl cs else consHead c (splitNl cs)

/-- `cleanedLines.join("\n")` (clean.ts 211). -/
def joinNl : List (List Char) → List Char
  | [] => []
  | l :: ls =>
    match ls with
    | [] => l
    | _ :: _ => l ++ '\n' :: joinNl ls

/-- Length of the leading run of newlines. -/
def nlRun : List Char → Nat
  | [] => 0
  | c :: cs => if c = '\n' then nlRun cs + 1 else 0

/-- What remains after the leading run of newlines. -/
def nlRest : List Char → List Char
  | [] => []
  | c :: cs => if c = '\n' then nlRest cs else c :: cs

/-- The replacement length for a run of `n` newlines under `/\n{3,}/g → "\n\n"`. -/
def capRun (n : Nat) : Nat := if 3 ≤ n then 2 else n

/-- Single pass of `.replace(/\n{3,}/g, "\n\n")` (clean.ts 211): `pending`
counts the newlines of the current run, flushed capped at a non-newline. -/
def collapseAux : List Char → Nat → List Char
  | [], pending => List.replicate (capRun pending) '\n'
  | c :: cs, pending =>
    if c = '\n' then collapseAux cs (pending + 1)
    else List.replicate (capRun pending) '\n' ++ c :: collapseAux cs 0

/-- `.replace(/\n{3,}/g, "\n\n")` (clean.ts 211). -/
def collapse (s : List Char) : List Char := collapseAux s 0

/-- Result record of `cleanFileContent`. -/
structure CleanResult where
  cleaned : List Char
  removedCount : Nat
deriving DecidableEq, Repr

/-- `cleanFileContent` (clean.ts 147-214), with the per-line removal decision
abstracted into the pure predicate `d` (the regex tests of clean.ts are pure
functions of the line; see `shouldRemoveLine` for the decision's structure).
Lines are filtered by `d`, the kept lines are re-joined with newlines, and
runs of three or more newlines are collapsed to two. -/
def cleanFileContent (d : List Char → Bool) (content : List Char) : CleanResult :=
  let lines := splitNl content
  let cleanedLines := lines.filter (fun l => !(d l))
  { cleaned := collapse (joinNl cleanedLines)
    removedCount := (lines.filter (fun l => d l)).length }

/-- The regex oracles that determine one file extension's per-line decision in
`cleanFileContent` (clean.ts 159-200): the custom `--pattern` regex, the
Dart project-import regex built from the detected project name, the built-in
`LOCAL_IMPORT_PATTERNS[ext]` list, and the `EXTERNAL_PREFIXES` test of
`isExternalImport`.  Each oracle denotes `RegExp.test` applied to the line
(the source tests the Dart and built-in patterns against `line.trim()`;
that trimming is absorbed into the corresponding oracle). -/
structure LinePatterns where
  customMatches : Option (List Char → Bool)
  dartProjectMatches : Option (List Char → Bool)
  builtinMatches : List (List Char → Bool)
  isExternal : List Char → Bool
  keepExternal : Bool

/-- The per-line `shouldRemove` decision of `cleanFileContent` (clean.ts
159-200): custom pattern first; then the Dart project-import check with the
`keepExternal` exemption; then the first matching built-in pattern with the
same exemption. -/
def shouldRemoveLine (P : LinePatterns) (line : List Char) : Bool :=
  let custom : Bool :=
    match P.customMatches with
    | some m => m line
    | none => false
  if custom then true else
  let dart : Bool :=
    match P.dartProjectMatches with
    | some m =>
      if m line then (if P.keepExternal && P.isExternal line then false else true)
      else false
    | none => false
  if dart then true else
  match P.builtinMatches.find? (fun m => m line) with
  | some _ => if P.keepExternal && P.isExternal line then false else true
  | none => false

/-! ### Data model: registry entries, metadata, persisted state -/

/-- The `source` provenance record of `brick.json` (spec §3). -/
structure SourceInfo where
  origin : String
  path : String
deriving DecidableEq, Repr

/-- The `BrickMetadata` record written to `templates/<name>/brick.json`
(shape per the fields the commands construct and read; spec §3).  `dependencies`
and `devDependencies` are optional in the source; absence is modelled by `[]`. -/
structure BrickMetadata where
  name : String
  type : String
  version : String
  description : String
  createdAt : String
  updatedAt : String
  source : SourceInfo
  files : List String
  tags : List String
  dependencies : List (String × String)
  devDependencies : List (String × String)
deriving DecidableEq, Repr

/-- A `store.json` registry entry: the source's `LocalTemplate` and
remote-template interfaces (spec §3, §6). -/
inductive StoreEntry where
  | localTemplate (path description : String) (tags : List String)
      (createdAt updatedAt : String)
  | remoteTemplate (owner repo gpath ref : String) (commit : Option String)
      (description : String) (tags : List String) (createdAt updatedAt : String)
deriving DecidableEq, Repr

/-- The `path` field of a registry entry (empty for remote entries, which do
not use it). -/
def storePath : StoreEntry → String
  | .localTemplate p _ _ _ _ => p
  | .remoteTemplate _ _ _ _ _ _ _ _ _ => ""

/-- One entry of a template storage directory (or of an extracted archive):
either an ordinary file's bytes or the `brick.json` metadata file (the JSON
(de)serialization of metadata being the external JSON library, the metadata
file is carried structurally). -/
inductive TEntry where
  | data (c : List Char)
  | meta (m : BrickMetadata)
deriving DecidableEq, Repr

/-- The persisted state the commands mutate: the `store.json` registry and the
`templates/<name>/` directories (each directory a flat list of relative path →
entry), plus the initialization flag (spec §6). -/
structure FsState where
  initialized : Bool
  registry : List (String × StoreEntry)
  templates : List (String × List (String × TEntry))
deriving DecidableEq, Repr

/-! Association-list primitives for the registry and for directories. -/

/-- Lookup by key in an association list. -/
def alookup {α : Type} (k : String) : List (String × α) → Option α
  | [] => none
  | (k', v) :: t => if k' = k then some v else alookup k t

/-- Insert-or-replace by key in an association list. -/
def aset {α : Type} (k : String) (v : α) : List (String × α) → List (String × α)
  | [] => [(k, v)]
  | (k', v') :: t => if k' = k then (k, v) :: t else (k', v') :: aset k v t

/-- Remove a key from an association list. -/
def aremove {α : Type} (k : String) : List (String × α) → List (String × α)
  | [] => []
  | (k', v') :: t => if k' = k then aremove k t else (k', v') :: aremove k t

/-! ### The storage layer (`src/lib/storage.ts`, not part of src/) -/

/-- Modelled from the spec: `isInitialized` of the storage layer (not in src/)
reports whether the `~/.codebrick` storage structure exists (spec §6, init). -/
def isInitialized (st : FsState) : Bool := st.initialized

/-- Modelled from the spec: `templateExists` of the storage layer (not in
src/); the registry is the single source of truth for name uniqueness
(spec §3). -/
def templateExists (name : String) (st : FsState) : Bool :=
  (alookup name st.registry).isSome

/-- Modelled from the spec: `getTemplate` of the storage layer (not in src/)
reads the registry entry for a name (spec §4.1 `get`). -/
def getTemplate (name : String) (st : FsState) : Option StoreEntry :=
  alookup name st.registry

/-- Modelled from the spec: `getTemplatePath` of the storage layer (not in
src/) returns the template's storage directory under the root directory
(`~/.codebrick/templates/<name>`, spec §6); `root` is the absolute
`CODEBRICK_DIR`. -/
def getTemplatePath (root name : String) : String :=
  root ++ "/templates/" ++ name

/-- Modelled from the spec: `loadTemplateMetadata` of the storage layer (not in
src/) reads `templates/<name>/brick.json`, giving `none` when it is missing or
unparsable (spec §4.2 `load`). -/
def loadTemplateMetadata (name : String) (st : FsState) : Option BrickMetadata :=
  match alookup name st.templates with
  | none => none
  | some dir =>
    match alookup "brick.json" dir with
    | some (.meta m) => some m
    | _ => none

/-- Modelled from the spec: `saveTemplateMetadata` of the storage layer (not in
src/) overwrites `templates/<name>/brick.json` (spec §4.2 `save`; the
temp-then-rename atomicity is invisible at this level of abstraction). -/
def saveTemplateMetadata (name : String) (m : BrickMetadata) (st : FsState) : FsState :=
  let dir := (alookup name st.templates).getD []
  { st with templates := aset name (aset "brick.json" (.meta m) dir) st.templates }

/-- Modelled from the spec: `addTemplateToStore` of the storage layer (not in
src/) writes a registry entry under the name (spec §4.1 `put`). -/
def addTemplateToStore (name : String) (e : StoreEntry) (st : FsState) : FsState :=
  { st with registry := aset name e st.registry }

/-- Digit value of a decimal digit char. -/
def digitVal (c : Char) : Nat := c.toNat - 48

/-- Parse a nonempty all-digit string as a natural number. -/
def parseIndex (s : String) : Option Nat :=
  if s.data ≠ [] ∧ s.data.all Char.isDigit then
    some (s.data.foldl (fun acc c => acc * 10 + digitVal c) 0)
  else none

/-- Modelled from the spec: `resolveTemplateName` of the storage layer (not in
src/): a positive integer within `[1, count]` of the registry's insertion
order resolves to the name at that position, otherwise the input is taken
literally as a name and must exist (spec §4.1). -/
def resolveTemplateName (inp : String) (st : FsState) : Option String :=
  match parseIndex inp with
  | some i =>
    if h : 1 ≤ i ∧ i - 1 < st.registry.length then
      some (st.registry.get ⟨i - 1, h.2⟩).1
    else if (alookup inp st.registry).isSome then some inp else none
  | none => if (alookup inp st.registry).isSome then some inp else none

/-! ### Source directory trees and `getFilesRecursive` (utils.ts 839-870) -/

/-- A source directory tree. -/
inductive FsTree where
  | file (c : List Char)
  | dir (entries : List (String × FsTree))

/-- An entry name whose files `getFilesRecursive` skips (utils.ts 862-864):
hidden files and `brick.json`. -/
def skipFileName (n : String) : Bool :=
  (match n.data with | [] => false | c :: _ => c = '.') || n = "brick.json"

/-- A directory name `getFilesRecursive` skips (utils.ts 851-857): hidden
directories, `node_modules`, `__pycache__`. -/
def skipDirName (n : String) : Bool :=
  (match n.data with | [] => false | c :: _ => c = '.') ||
    n = "node_modules" || n = "__pycache__"

mutual

/-- `getFilesRecursive` (utils.ts 839-870) on a subtree, with `pre` the
relative-path prefix accumulated so far: collect non-hidden files (skipping
`brick.json`), recurse into non-skipped directories, and sort the collected
relative paths at each level. -/
def getFilesRecursiveAux : FsTree → String → List String
  | .file _, _ => []
  | .dir entries, pre => sortStrings (walkEntries entries pre)

/-- The `readdir` loop of `getFilesRecursive`. -/
def walkEntries : List (String × FsTree) → String → List String
  | [], _ => []
  | (n, t) :: rest, pre =>
    (match t with
     | .file _ => if skipFileName n then [] else [pre ++ n]
     | .dir es => if skipDirName n then [] else getFilesRecursiveAux (.dir es) (pre ++ n ++ "/"))
      ++ walkEntries rest pre

end

/-- `getFilesRecursive(resolvedPath)` (utils.ts 839): relative paths from the
root of the tree. -/
def getFilesRecursive (t : FsTree) : List String := getFilesRecursiveAux t ""

/-- Split a relative path into its `/`-separated segments. -/
def splitSlashAux : List Char → List (List Char)
  | [] => [[]]
  | c :: cs => if c = '/' then [] :: splitSlashAux cs else consHead c (splitSlashAux cs)

/-- Path segments of a relative path string. -/
def splitSlash (p : String) : List String := (splitSlashAux p.data).map String.mk

/-- Walk a tree along path segments to a file's contents. -/
def lookupSeg : List String → FsTree → Option (List Char)
  | [], .file c => some c
  | [], .dir _ => none
  | _ :: _, .file _ => none
  | seg :: rest, .dir es =>
    match alookup seg es with
    | some t => lookupSeg rest t
    | none => none

/-- Contents of the file at relative path `p` in the source tree (the read side
of `fs.copy(sourceFile, destFile)` in `saveCommand`). -/
def lookupPath (t : FsTree) (p : String) : Option (List Char) :=
  lookupSeg (splitSlash p) t

/-- The `saveCommand` copy loop (save section of clean.ts, 562-567): copy each
selected relative path from the source tree into the accumulating directory;
a missing source file makes `fs.copy` throw, stopping the loop (`false`). -/
def copyAll (tree : FsTree) : List String → List (String × TEntry) →
    List (String × TEntry) × Bool
  | [], acc => (acc, true)
  | f :: fs, acc =>
    match lookupPath tree f with
    | some c => copyAll tree fs (aset f (.data c) acc)
    | none => (acc, false)

/-! ### Command plumbing -/

/-- Result of a prompt collaborator call: the user's answer, or cancellation. -/
inductive PRes (α : Type) where
  | cancel
  | val (a : α)
deriving DecidableEq, Repr

/-- How a command invocation ended: normal completion, the cancelled-and-abort
path (`p.cancel` + exit 0), or an error path (message + exit 1 / throw). -/
inductive Outcome where
  | success
  | cancelled
  | errored (msg : String)
deriving DecidableEq, Repr

/-! ### `saveCommand` (save section of clean.ts, 404-617) -/

/-- Options of `saveCommand` (`include`/`exclude` renamed to `includeGlob` /
`excludeGlob` because `include` is a Lean keyword). -/
structure SaveOptions where
  description : Option String
  tags : Option String
  includeGlob : Option String
  excludeGlob : Option String
  detectDeps : Bool
deriving DecidableEq, Repr

/-- The prompts `saveCommand` may show, in order: the overwrite confirmation,
the add-detected-dependencies confirmation, and the description text input. -/
structure SavePrompts where
  overwrite : PRes Bool
  addDeps : PRes Bool
  descriptionText : PRes String
deriving DecidableEq, Repr

/-- `options.tags.split(",").map(trim).filter(Boolean)` (save section, 551-553). -/
def parseTags : Option String → List String
  | none => []
  | some s => ((s.splitOn ",").map String.trim).filter (fun t => t ≠ "")

/-- The file-selection step of `saveCommand` (save section, 454-479): with
`--include`, the fast-glob result (oracle `fgInc`, in the order the library
returned it); otherwise `getFilesRecursive`, minus the fast-glob result for
`--exclude` (oracle `fgExc`). -/
def selectFiles (tree : FsTree) (opts : SaveOptions) (fgInc fgExc : List String) :
    List String :=
  match opts.includeGlob with
  | some _ => fgInc
  | none =>
    let base := getFilesRecursive tree
    match opts.excludeGlob with
    | some _ => base.filter (fun f => !(fgExc.contains f))
    | none => base

/-- The already-exists step of `saveCommand` (save section, 437-452): if the
name is taken, confirm overwriting; cancellation or refusal aborts; on
confirmation the existing storage directory is removed at once
(`fs.remove(existingPath)`). -/
def saveOverwriteStep (st : FsState) (name : String) (ow : PRes Bool) :
    Option FsState :=
  if templateExists name st then
    match ow with
    | .cancel => none
    | .val false => none
    | .val true => some { st with templates := aremove name st.templates }
  else some st

/-- The dependency-detection step of `saveCommand` (save section, 494-532):
with `--detect-deps` and a nonempty detection result (oracle `detectedDeps`,
already de-duplicated), confirm adding them; cancellation aborts, refusal
empties the list. -/
def saveDepsStep (opts : SaveOptions) (ad : PRes Bool) (detectedDeps : List String) :
    Option (List String) :=
  if opts.detectDeps then
    if detectedDeps = [] then some [] else
    match ad with
    | .cancel => none
    | .val true => some detectedDeps
    | .val false => some []
  else some []

/-- The description step of `saveCommand` (save section, 534-548): use
`--description` if given, otherwise prompt; cancellation aborts. -/
def saveDescriptionStep (opts : SaveOptions) (dt : PRes String) : Option String :=
  match opts.description with
  | some d => some d
  | none =>
    match dt with
    | .cancel => none
    | .val s => some s

/-- The `brick.json` metadata `saveCommand` writes (save section, 569-592). -/
def saveMetadataOf (name sourcePath : String) (files : List String)
    (description : String) (tags : List String) (deps : List String)
    (now : String) : BrickMetadata :=
  { name := name, type := "local", version := "1.0.0"
    description := description, createdAt := now, updatedAt := now
    source := { origin := "local", path := sourcePath }
    files := files, tags := tags
    dependencies := deps.map (fun d => (d, "*")), devDependencies := [] }

/-- The copy-metadata-registry tail of `saveCommand` (save section, 555-609):
copy the selected files into the storage directory (a throwing `fs.copy`
aborts with the partial directory in place), write `brick.json`, then the
registry entry with the relative path `templates/<name>`. -/
def saveFinish (st1 : FsState) (name sourcePath : String) (tree : FsTree)
    (opts : SaveOptions) (deps : List String) (description : String)
    (fgInc fgExc : List String) (now : String) : FsState × Outcome :=
  if (copyAll tree (selectFiles tree opts fgInc fgExc)
      ((alookup name st1.templates).getD [])).2 = false then
    ({ st1 with templates := (aset name
        (copyAll tree (selectFiles tree opts fgInc fgExc)
          ((alookup name st1.templates).getD [])).1 st1.templates) },
      .errored "copy failed")
  else
    (addTemplateToStore name
      (.localTemplate ("templates/" ++ name) description (parseTags opts.tags) now now)
      (saveTemplateMetadata name
        (saveMetadataOf name sourcePath (selectFiles tree opts fgInc fgExc)
          description (parseTags opts.tags) deps now)
        { st1 with templates := (aset name
            (copyAll tree (selectFiles tree opts fgInc fgExc)
              ((alookup name st1.templates).getD [])).1 st1.templates) }),
      .success)

/-- `saveCommand` (save section of clean.ts, 404-617) as a transition on the
persisted state.  `tree` is the (existing, directory) source path's content;
`sourcePath` its resolved absolute path string; `fgInc`/`fgExc` the fast-glob
oracle results; `detectedDeps` the dependency-detection oracle result; `now`
the timestamp. -/
def saveCommand (st : FsState) (name : String) (sourcePath : String) (tree : FsTree)
    (opts : SaveOptions) (prompts : SavePrompts) (fgInc fgExc : List String)
    (detectedDeps : List String) (now : String) : FsState × Outcome :=
  if st.initialized = false then (st, .errored "not initialized") else
  match saveOverwriteStep st name prompts.overwrite with
  | none => (st, .cancelled)
  | some st1 =>
    if selectFiles tree opts fgInc fgExc = [] then
      (st1, .errored "No files found in the specified path")
    else
      match saveDepsStep opts prompts.addDeps detectedDeps with
      | none => (st1, .cancelled)
      | some deps =>
        match saveDescriptionStep opts prompts.descriptionText with
        | none => (st1, .cancelled)
        | some description =>
          saveFinish st1 name sourcePath tree opts deps description fgInc fgExc now

/-! ### `createBrickArchive` (export.ts 100-138) -/

/-- `createBrickArchive` (export.ts 100-138): the produced archive's entries.
`archive.directory(templatePath, "template", filter)` adds every file of the
storage directory under the `template/` prefix, the filter dropping the entry
named `brick.json`; then the serialized metadata is appended as `brick.json`
at the archive root. -/
def createBrickArchive (dir : List (String × TEntry)) (metadata : BrickMetadata) :
    List (String × TEntry) :=
  (dir.filter (fun e => e.1 ≠ "brick.json")).map (fun e => ("template/" ++ e.1, e.2))
    ++ [("brick.json", .meta metadata)]

/-! ### `importCommand` (import section of clean.ts, 638-801) -/

/-- Options of `importCommand`. -/
structure ImportOptions where
  name : Option String
  force : Bool
deriving DecidableEq, Repr

/-- The prompts `importCommand` may show: the overwrite confirmation and the
new-name text input. -/
structure ImportPrompts where
  overwrite : PRes Bool
  newName : PRes String
deriving DecidableEq, Repr

/-- The regex `/^[a-z0-9-_]+$/i` of `importCommand`'s rename-prompt validator
(equivalently the spec's `[A-Za-z0-9_-]+`, anchored): nonempty, all chars
ASCII letters, digits, hyphen or underscore. -/
def matchesNamePattern (s : String) : Bool :=
  !s.data.isEmpty && s.data.all (fun c => c.isAlphanum || c = '-' || c = '_')

/-- The `validate` callback of `importCommand`'s rename prompt (import
section, 710-715). -/
def importNameValidator (v : String) : Option String :=
  if v = "" then some "Name is required"
  else if !(matchesNamePattern v) then
    some "Name can only contain letters, numbers, hyphens, and underscores"
  else none

/-- The template-name step of `importCommand` (import section, 689-729):
`--name` overrides the archived name; a collision is resolved by `--force`,
by the overwrite confirmation, or by the rename prompt; cancelling the rename
prompt aborts the import. -/
def importNameStep (st : FsState) (opts : ImportOptions) (prompts : ImportPrompts)
    (metaName : String) : Option String :=
  let templateName := opts.name.getD metaName
  if templateExists templateName st then
    if opts.force then some templateName
    else
      match prompts.overwrite with
      | .val true => some templateName
      | .cancel | .val false =>
        match prompts.newName with
        | .cancel => none
        | .val nn => some nn
  else some templateName

/-- The `template/`-subtree of an extracted archive, prefix stripped (import
section, 732-742). -/
def stripTemplate (archive : List (String × TEntry)) : List (String × TEntry) :=
  archive.filterMap (fun e =>
    if strStartsWith e.1 "template/" then some (strDrop e.1 9, e.2) else none)

/-- The copy-metadata-registry tail of `importCommand` (import section,
731-782): remove any existing storage directory for the chosen name, copy the
`template/` subtree of the extracted archive (or, when that subtree is absent,
every extracted entry except `brick.json`), write the renamed metadata, then
the registry entry with the `getTemplatePath` storage path. -/
def importFinish (st : FsState) (root : String) (archive : List (String × TEntry))
    (metadata : BrickMetadata) (templateName : String) (now archiveBase : String) :
    FsState × Outcome :=
  (addTemplateToStore templateName
    (.localTemplate (getTemplatePath root templateName) metadata.description
      metadata.tags (if metadata.createdAt = "" then now else metadata.createdAt) now)
    (saveTemplateMetadata templateName
      { metadata with
        name := templateName, updatedAt := now
        source := { origin := "local", path := "imported from " ++ archiveBase } }
      { st with templates := (aset templateName
          (if stripTemplate archive ≠ [] then stripTemplate archive
           else archive.filter (fun e => e.1 ≠ "brick.json"))
          (aremove templateName st.templates)) }),
    .success)

/-- `importCommand` (import section of clean.ts, 638-801) as a transition on
the persisted state.  `archive` is the extracted archive's entries (the
temporary extraction directory lives under the caller's cwd, outside the
persisted state, and is removed in the `finally`); `archiveBase` the
basename of the `.brick` file; `root` the absolute `CODEBRICK_DIR`. -/
def importCommand (st : FsState) (root : String) (archive : List (String × TEntry))
    (opts : ImportOptions) (prompts : ImportPrompts) (now : String)
    (archiveBase : String) : FsState × Outcome :=
  if st.initialized = false then (st, .errored "not initialized") else
  match alookup "brick.json" archive with
  | none => (st, .errored "Invalid .brick file: missing brick.json metadata")
  | some (.data _) => (st, .errored "invalid brick.json metadata")
  | some (.meta metadata) =>
    match importNameStep st opts prompts metadata.name with
    | none => (st, .cancelled)
    | some templateName =>
      importFinish st root archive metadata templateName now archiveBase

/-! ### `cleanCommand` (clean.ts 216-375) -/

/-- Options of `cleanCommand` (`keepExternal` is absorbed into the per-file
decision oracle, see `cleanCommand`). -/
structure CleanOptions where
  pattern : Option String
  dryRun : Bool
  keepExternal : Bool
deriving DecidableEq, Repr

/-- Read a template-directory file as text (`fs.readFile(filePath, "utf-8")`);
the `brick.json` metadata entry is treated as unreadable here, which is
observationally equivalent for `cleanCommand` because its final
`saveTemplateMetadata` overwrites `brick.json` in every completed run. -/
def readDataFile (dir : List (String × TEntry)) (f : String) : Option (List Char) :=
  match alookup f dir with
  | some (.data c) => some c
  | _ => none

/-- The analysis step of `cleanCommand` (clean.ts 277-301) for one manifest
file: cleanable iff the file has a decision (a known code extension or a
custom pattern), is readable, and cleaning it removes at least one line. -/
def cleanableFile (decider : String → Option (List Char → Bool))
    (dir : List (String × TEntry)) (f : String) : Bool :=
  match decider f, readDataFile dir f with
  | some d, some c => decide (0 < (cleanFileContent d c).removedCount)
  | _, _ => false

/-- The rewrite loop of `cleanCommand` (clean.ts 345-362): re-read each
cleanable file and overwrite it with its cleaned content; unreadable files are
skipped. -/
def rewriteFiles (decider : String → Option (List Char → Bool))
    (dir : List (String × TEntry)) (toClean : List String) :
    List (String × TEntry) :=
  toClean.foldl (fun acc f =>
    match decider f, readDataFile acc f with
    | some d, some c => aset f (.data (cleanFileContent d c).cleaned) acc
    | _, _ => acc) dir

/-- `cleanCommand` (clean.ts 216-375) as a transition on the persisted state.
`decider` maps a manifest file path to its per-line removal decision
(`shouldRemoveLine` of the extension's `LinePatterns`, combining the custom
`--pattern`, the detected project name, the built-in patterns and
`keepExternal`), or `none` when the file is skipped (no known code extension
and no custom pattern, clean.ts 282). -/
def cleanCommand (st : FsState) (inp : String) (opts : CleanOptions)
    (decider : String → Option (List Char → Bool)) (confirmRes : PRes Bool)
    (now : String) : FsState × Outcome :=
  if st.initialized = false then (st, .errored "not initialized") else
  match resolveTemplateName inp st with
  | none => (st, .errored "template not found")
  | some name =>
    match getTemplate name st with
    | none => (st, .errored "template not found")
    | some (.remoteTemplate ..) => (st, .errored "cannot clean remote templates")
    | some (.localTemplate ..) =>
      match loadTemplateMetadata name st with
      | none => (st, .errored "failed to load template metadata")
      | some md =>
        if md.files.filter (cleanableFile decider ((alookup name st.templates).getD [])) = [] then
          (st, .success)
        else if opts.dryRun then (st, .success) else
        match confirmRes with
        | .cancel => (st, .cancelled)
        | .val false => (st, .cancelled)
        | .val true =>
          (saveTemplateMetadata name { md with updatedAt := now }
            { st with templates := (aset name
                (rewriteFiles decider ((alookup name st.templates).getD [])
                  (md.files.filter (cleanableFile decider ((alookup name st.templates).getD []))))
                st.templates) },
            .success)

/-! ### Concrete fixtures used by witnesses and counterexamples -/

/-- A small metadata record for a template named `demo` with one file. -/
def mdDemo : BrickMetadata :=
  { name := "demo", type := "local", version := "1.0.0", description := ""
    createdAt := "t0", updatedAt := "t0"
    source := { origin := "local", path := "/src" }
    files := ["a.ts"], tags := [], dependencies := [], devDependencies := [] }

/-- An initialized state holding the local template `demo` with one file. -/
def stDemo : FsState :=
  { initialized := true
    registry := [("demo", .localTemplate "templates/demo" "" [] "t0" "t0")]
    templates := [("demo", [("brick.json", .meta mdDemo), ("a.ts", .data ['x'])])] }

/-- An initialized state with no templates. -/
def stEmpty : FsState := { initialized := true, registry := [], templates := [] }

/-- A one-file source directory. -/
def trOne : FsTree := .dir [("a.ts", .file ['y'])]

/-- A two-file source directory. -/
def trTwo : FsTree := .dir [("a.ts", .file ['a']), ("b.ts", .file ['b'])]

/-- A source directory with a subdirectory. -/
def trSub : FsTree := .dir [("sub", .dir [("b.ts", .file ['b'])]), ("a.ts", .file ['a'])]

/-- An initialized state holding the local template `demo` whose single file
contains one removable line (under `deciderDemo`) followed by one kept line. -/
def stClean : FsState :=
  { initialized := true
    registry := [("demo", .localTemplate "templates/demo" "" [] "t0" "t0")]
    templates := [("demo", [("brick.json", .meta mdDemo),
      ("a.ts", .data ['i', '\n', 'c'])])] }

/-- A per-file decision oracle for `stClean`: in `a.ts`, remove exactly the
line `i`. -/
def deciderDemo : String → Option (List Char → Bool) :=
  fun f => if f = "a.ts" then some (fun l => decide (l = ['i'])) else none

/-! ### Lemmas: association lists -/

theorem alookup_aset_self {α : Type} (k : String) (v : α) (l : List (String × α)) :
    alookup k (aset k v l) = some v := by
  induction l with
  | nil => simp [aset, alookup]
  | cons e t ih =>
    obtain ⟨k', v'⟩ := e
    by_cases h : k' = k
    · subst h; simp [aset, alookup]
    · simp [aset, alookup, h, ih]

theorem alookup_aset_ne {α : Type} {k k' : String} (h : k ≠ k') (v : α)
    (l : List (String × α)) : alookup k (aset k' v l) = alookup k l := by
  have h' : k' ≠ k := fun hh => h hh.symm
  induction l with
  | nil => simp [aset, alookup, h']
  | cons e t ih =>
    obtain ⟨a, b⟩ := e
    by_cases ha : a = k'
    · subst ha
      simp [aset, alookup, h']
    · by_cases hak : a = k
      · subst hak; simp [aset, alookup, ha]
      · simp [aset, alookup, ha, hak, ih]

theorem alookup_append {α : Type} (k : String) (l r : List (String × α)) :
    alookup k (l ++ r) =
      match alookup k l with
      | some v => some v
      | none => alookup k r := by
  induction l with
  | nil => simp [alookup]
  | cons e t ih =>
    obtain ⟨a, b⟩ := e
    by_cases h : a = k
    · simp [alookup, h]
    · simp [alookup, h, ih]

theorem alookup_of_forall_ne {α : Type} {k : String} {l : List (String × α)}
    (h : ∀ e ∈ l, e.1 ≠ k) : alookup k l = none := by
  induction l with
  | nil => rfl
  | cons e t ih =>
    obtain ⟨a, b⟩ := e
    have ha : a ≠ k := h (a, b) (List.mem_cons_self _ _)
    simp only [alookup, if_neg ha]
    exact ih fun e he => h e (List.mem_cons_of_mem _ he)

theorem aset_of_alookup_none {α : Type} {k : String} (v : α) {l : List (String × α)}
    (h : alookup k l = none) : aset k v l = l ++ [(k, v)] := by
  induction l with
  | nil => rfl
  | cons e t ih =>
    obtain ⟨a, b⟩ := e
    simp only [alookup] at h
    by_cases ha : a = k
    · rw [if_pos ha] at h; exact absurd h (by simp)
    · rw [if_neg ha] at h
      simp [aset, ha, ih h]

/-! ### Lemmas: strings -/

theorem strData_append (a b : String) : (a ++ b).data = a.data ++ b.data := by
  cases a; cases b; rfl

theorem strMk_data (s : String) : String.mk s.data = s := by cases s; rfl

theorem templatePre_ne_brick (p : String) : ("template/" ++ p) ≠ "brick.json" := by
  intro h
  have h2 : ("template/" ++ p).data = "brick.json".data := by rw [h]
  rw [strData_append] at h2
  have h3 : ('t' :: ("emplate/".data ++ p.data)) = ('b' :: "rick.json".data) := h2
  injection h3 with h4 _
  exact absurd h4 (by decide)

theorem strStartsWith_templatePre (p : String) :
    strStartsWith ("template/" ++ p) "template/" = true := by
  have h : ("template/" ++ p).data.take "template/".data.length = "template/".data := by
    rw [strData_append]
    exact List.take_left _ _
  simp [strStartsWith, h]

theorem strDrop_templatePre (p : String) : strDrop ("template/" ++ p) 9 = p := by
  have h9 : ("template/".data).length = 9 := rfl
  have h : ("template/" ++ p).data.drop 9 = p.data := by
    rw [strData_append, ← h9]
    exact List.drop_left _ _
  rw [strDrop, h, strMk_data]

/-! ### Lemmas: sorting -/

theorem lexLe_total (a b : List Char) : lexLe a b = true ∨ lexLe b a = true := by
  induction a generalizing b with
  | nil => left; rfl
  | cons x xs ih =>
    cases b with
    | nil => right; rfl
    | cons y ys =>
      simp only [lexLe]
      by_cases h : x.toNat = y.toNat
      · rw [if_pos h, if_pos h.symm]; exact ih ys
      · rw [if_neg h, if_neg fun hh => h hh.symm]
        rcases Nat.lt_or_ge x.toNat y.toNat with hlt | hge
        · left; exact decide_eq_true hlt
        · right
          exact decide_eq_true (Nat.lt_of_le_of_ne hge fun hh => h hh.symm)

theorem lexLe_trans (a : List Char) : ∀ (b c : List Char),
    lexLe a b = true → lexLe b c = true → lexLe a c = true := by
  induction a with
  | nil => intro b c _ _; rfl
  | cons x xs ih =>
    intro b c h1 h2
    cases b with
    | nil => simp [lexLe] at h1
    | cons y ys =>
      cases c with
      | nil => simp [lexLe] at h2
      | cons z zs =>
        simp only [lexLe] at h1 h2 ⊢
        by_cases hxy : x.toNat = y.toNat <;> by_cases hyz : y.toNat = z.toNat
        · rw [if_pos (hxy.trans hyz)]
          rw [if_pos hxy] at h1; rw [if_pos hyz] at h2
          exact ih ys zs h1 h2
        · rw [if_neg hyz] at h2
          have hz : x.toNat < z.toNat := hxy ▸ of_decide_eq_true h2
          rw [if_neg (Nat.ne_of_lt hz)]
          exact decide_eq_true hz
        · rw [if_neg hxy] at h1
          have hz : x.toNat < z.toNat := hyz ▸ of_decide_eq_true h1
          rw [if_neg (Nat.ne_of_lt hz)]
          exact decide_eq_true hz
        · rw [if_neg hxy] at h1; rw [if_neg hyz] at h2
          have hz := Nat.lt_trans (of_decide_eq_true h1) (of_decide_eq_true h2)
          rw [if_neg (Nat.ne_of_lt hz)]
          exact decide_eq_true hz

theorem strLe_total (a b : String) : strLe a b = true ∨ strLe b a = true :=
  lexLe_total a.data b.data

theorem strLe_trans {a b c : String} (h1 : strLe a b = true) (h2 : strLe b c = true) :
    strLe a c = true :=
  lexLe_trans a.data b.data c.data h1 h2

theorem mem_insertSorted {x s : String} {l : List String} :
    x ∈ insertSorted s l ↔ x = s ∨ x ∈ l := by
  induction l with
  | nil => simp [insertSorted]
  | cons t ts ih =>
    simp only [insertSorted]
    split
    · simp [List.mem_cons]
    · simp only [List.mem_cons, ih]
      tauto

theorem pairwise_insertSorted (s : String) (l : List String)
    (h : l.Pairwise (fun a b => strLe a b = true)) :
    (insertSorted s l).Pairwise (fun a b => strLe a b = true) := by
  induction l with
  | nil => simp [insertSorted]
  | cons t ts ih =>
    rcases List.pairwise_cons.mp h with ⟨ht, hts⟩
    simp only [insertSorted]
    split
    · rename_i hst
      refine List.pairwise_cons.mpr ⟨?_, h⟩
      intro b hb
      rcases List.mem_cons.mp hb with rfl | hb
      · exact hst
      · exact strLe_trans hst (ht b hb)
    · rename_i hst
      refine List.pairwise_cons.mpr ⟨?_, ih hts⟩
      intro b hb
      rcases mem_insertSorted.mp hb with rfl | hb
      · rcases strLe_total t b with h' | h'
        · exact h'
        · exact absurd h' hst
      · exact ht b hb

theorem pairwise_sortStrings (l : List String) :
    (sortStrings l).Pairwise (fun a b => strLe a b = true) := by
  induction l with
  | nil => simp [sortStrings]
  | cons a t ih => exact pairwise_insertSorted a _ ih

theorem isSortedStr_of_pairwise : ∀ {l : List String},
    l.Pairwise (fun a b => strLe a b = true) → isSortedStr l = true
  | [], _ => rfl
  | [_], _ => rfl
  | a :: b :: t, h => by
    rcases List.pairwise_cons.mp h with ⟨ha, h2⟩
    simp only [isSortedStr, Bool.and_eq_true]
    exact ⟨ha b (by simp), isSortedStr_of_pairwise h2⟩

theorem pairwise_of_isSortedStr : ∀ {l : List String},
    isSortedStr l = true → l.Pairwise (fun a b => strLe a b = true)
  | [], _ => by simp
  | [a], _ => by simp
  | a :: b :: t, h => by
    simp only [isSortedStr, Bool.and_eq_true] at h
    have hp := pairwise_of_isSortedStr h.2
    refine List.pairwise_cons.mpr ⟨?_, hp⟩
    intro x hx
    rcases List.mem_cons.mp hx with rfl | hx
    · exact h.1
    · rcases List.pairwise_cons.mp hp with ⟨hb, _⟩
      exact strLe_trans h.1 (hb x hx)

theorem isSortedStr_sortStrings (l : List String) : isSortedStr (sortStrings l) = true :=
  isSortedStr_of_pairwise (pairwise_sortStrings l)

theorem isSortedStr_filter (p : String → Bool) {l : List String}
    (h : isSortedStr l = true) : isSortedStr (l.filter p) = true :=
  isSortedStr_of_pairwise ((pairwise_of_isSortedStr h).sublist (List.filter_sublist l))

theorem getFilesRecursive_sorted (t : FsTree) : isSortedStr (getFilesRecursive t) = true := by
  cases t with
  | file c => rfl
  | dir es => exact isSortedStr_sortStrings _

theorem selectFiles_sorted (tree : FsTree) (opts : SaveOptions) (fgInc fgExc : List String)
    (h : opts.includeGlob = none) :
    isSortedStr (selectFiles tree opts fgInc fgExc) = true := by
  unfold selectFiles
  rw [h]
  cases opts.excludeGlob with
  | none => exact getFilesRecursive_sorted tree
  | some e => exact isSortedStr_filter _ (getFilesRecursive_sorted tree)

/-! ### Lemmas: the copy loop -/

theorem copyAll_frame (tree : FsTree) : ∀ (files : List String)
    (acc : List (String × TEntry)) (k : String), k ∉ files →
    alookup k (copyAll tree files acc).1 = alookup k acc := by
  intro files
  induction files with
  | nil => intro acc k _; rfl
  | cons f fs ih =>
    intro acc k hk
    simp only [copyAll]
    cases h : lookupPath tree f with
    | none => rfl
    | some c =>
      have hk1 : k ∉ fs := fun hh => hk (List.mem_cons_of_mem _ hh)
      have hk2 : k ≠ f := fun hh => hk (hh ▸ List.mem_cons_self _ _)
      rw [ih _ _ hk1, alookup_aset_ne hk2]

theorem copyAll_lookup (tree : FsTree) : ∀ (files : List String)
    (acc : List (String × TEntry)), (copyAll tree files acc).2 = true →
    ∀ f ∈ files, ∃ c, lookupPath tree f = some c ∧
      alookup f (copyAll tree files acc).1 = some (.data c) := by
  intro files
  induction files with
  | nil => intro acc _ f hf; exact absurd hf (List.not_mem_nil f)
  | cons g fs ih =>
    intro acc hok f hf
    cases h : lookupPath tree g with
    | none =>
      simp only [copyAll, h] at hok
      exact absurd hok (by simp)
    | some c =>
      simp only [copyAll, h] at hok ⊢
      rcases List.mem_cons.mp hf with rfl | hf2
      · by_cases hg : f ∈ fs
        · exact ih _ hok f hg
        · exact ⟨c, h, by rw [copyAll_frame tree fs _ f hg, alookup_aset_self]⟩
      · exact ih _ hok f hf2

/-! ### Lemmas: the cleanFileContent pipeline -/

theorem consHead_ne_nil (c : Char) (ls : List (List Char)) : consHead c ls ≠ [] := by
  cases ls <;> simp [consHead]

theorem splitNl_cons_nl (cs : List Char) : splitNl ('\n' :: cs) = [] :: splitNl cs := by
  simp [splitNl]

theorem splitNl_cons_not_nl (c : Char) (cs : List Char) (h : ¬ c = '\n') :
    splitNl (c :: cs) = consHead c (splitNl cs) := by
  simp [splitNl, h]

theorem nlRun_cons_nl (cs : List Char) : nlRun ('\n' :: cs) = nlRun cs + 1 := by
  simp [nlRun]

theorem nlRest_cons_nl (cs : List Char) : nlRest ('\n' :: cs) = nlRest cs := by
  simp [nlRest]

theorem collapseAux_cons_nl (cs : List Char) (p : Nat) :
    collapseAux ('\n' :: cs) p = collapseAux cs (p + 1) := by
  simp [collapseAux]

theorem capRun_zero : capRun 0 = 0 := rfl

theorem splitNl_ne_nil (s : List Char) : splitNl s ≠ [] := by
  induction s with
  | nil => simp [splitNl]
  | cons c cs ih =>
    simp only [splitNl]
    split
    · simp
    · exact consHead_ne_nil c _

theorem consHead_headD (c : Char) (ls : List (List Char)) :
    (consHead c ls).headD [] = c :: ls.headD [] := by
  cases ls <;> simp [consHead]

theorem consHead_tail (c : Char) (ls : List (List Char)) :
    (consHead c ls).tail = ls.tail := by
  cases ls <;> simp [consHead]

theorem headD_cons_tail {α : Type} (l : List α) (d : α) (h : l ≠ []) :
    l.headD d :: l.tail = l := by
  cases l with
  | nil => exact absurd rfl h
  | cons a t => rfl

theorem headD_mem {α : Type} (l : List α) (d : α) (h : l ≠ []) : l.headD d ∈ l := by
  cases l with
  | nil => exact absurd rfl h
  | cons a t => simp

theorem joinNl_consHead (c : Char) (ls : List (List Char)) (h : ls ≠ []) :
    joinNl (consHead c ls) = c :: joinNl ls := by
  cases ls with
  | nil => exact absurd rfl h
  | cons a as =>
    cases as with
    | nil => rfl
    | cons b bs => rfl

theorem joinNl_splitNl (s : List Char) : joinNl (splitNl s) = s := by
  induction s with
  | nil => rfl
  | cons c cs ih =>
    by_cases h : c = '\n'
    · subst h
      simp only [splitNl, if_pos rfl]
      cases hcs : splitNl cs with
      | nil => exact absurd hcs (splitNl_ne_nil cs)
      | cons a as =>
        show ('\n' : Char) :: joinNl (a :: as) = '\n' :: cs
        rw [← hcs, ih]
    · simp only [splitNl, if_neg h]
      rw [joinNl_consHead c _ (splitNl_ne_nil cs), ih]

theorem splitNl_no_nl (s : List Char) : ∀ l ∈ splitNl s, '\n' ∉ l := by
  induction s with
  | nil =>
    intro l hl
    simp only [splitNl, List.mem_singleton] at hl
    subst hl; simp
  | cons c cs ih =>
    intro l hl
    by_cases h : c = '\n'
    · subst h
      rw [splitNl_cons_nl] at hl
      rcases List.mem_cons.mp hl with rfl | hl
      · simp
      · exact ih l hl
    · rw [splitNl_cons_not_nl c cs h] at hl
      cases hcs : splitNl cs with
      | nil => exact absurd hcs (splitNl_ne_nil cs)
      | cons a as =>
        rw [hcs] at hl
        simp only [consHead, List.mem_cons] at hl
        have ha : a ∈ splitNl cs := by rw [hcs]; exact List.mem_cons_self a as
        rcases hl with rfl | hl
        · intro hmem
          rcases List.mem_cons.mp hmem with hc | hmem2
          · exact h hc.symm
          · exact ih a ha hmem2
        · exact ih l (by rw [hcs]; exact List.mem_cons_of_mem a hl)

theorem splitNl_replicate_append (k : Nat) (t : List Char) :
    splitNl (List.replicate k '\n' ++ t) = List.replicate k [] ++ splitNl t := by
  induction k with
  | zero => simp
  | succ n ih => simp [List.replicate_succ, splitNl, ih]

theorem replicate_nlRun_append_nlRest (s : List Char) :
    List.replicate (nlRun s) '\n' ++ nlRest s = s := by
  induction s with
  | nil => rfl
  | cons c cs ih =>
    by_cases h : c = '\n'
    · subst h
      rw [nlRun_cons_nl, nlRest_cons_nl, List.replicate_succ, List.cons_append, ih]
    · simp [nlRun, nlRest, h]

theorem nlRun_nlRest (s : List Char) : nlRun (nlRest s) = 0 := by
  induction s with
  | nil => rfl
  | cons c cs ih =>
    by_cases h : c = '\n'
    · subst h; simp only [nlRest, if_pos rfl]; exact ih
    · simp [nlRest, nlRun, h]

theorem nlRest_length (s : List Char) : (nlRest s).length ≤ s.length := by
  induction s with
  | nil => simp [nlRest]
  | cons c cs ih =>
    by_cases h : c = '\n'
    · subst h
      simp only [nlRest, if_pos rfl]
      exact Nat.le_succ_of_le ih
    · simp [nlRest, h]

theorem collapseAux_replicate (k : Nat) (t : List Char) (p : Nat) :
    collapseAux (List.replicate k '\n' ++ t) p = collapseAux t (p + k) := by
  induction k generalizing p with
  | zero => simp
  | succ n ih =>
    rw [List.replicate_succ, List.cons_append, collapseAux_cons_nl, ih (p + 1)]
    congr 1
    omega

theorem collapse_not_nl_cons (c : Char) (cs : List Char) (h : ¬ c = '\n') :
    collapse (c :: cs) = c :: collapse cs := by
  simp [collapse, collapseAux, h, capRun]

theorem collapse_run (n : Nat) (t : List Char) (h : nlRun t = 0) :
    collapse (List.replicate n '\n' ++ t) =
      List.replicate (capRun n) '\n' ++ collapse t := by
  unfold collapse
  rw [collapseAux_replicate, Nat.zero_add]
  cases t with
  | nil => simp [collapseAux, capRun_zero]
  | cons c cs =>
    simp only [nlRun] at h
    by_cases hc : c = '\n'
    · rw [if_pos hc] at h; omega
    · simp [collapseAux, hc, capRun]

theorem nlRun_collapse (t : List Char) (h : nlRun t = 0) : nlRun (collapse t) = 0 := by
  cases t with
  | nil => rfl
  | cons c cs =>
    simp only [nlRun] at h
    by_cases hc : c = '\n'
    · rw [if_pos hc] at h; omega
    · rw [collapse_not_nl_cons c cs hc]
      simp [nlRun, hc]

theorem capRun_le (n : Nat) : capRun n ≤ n := by
  unfold capRun; split <;> omega

theorem capRun_pos (n : Nat) (h : 1 ≤ n) : 1 ≤ capRun n := by
  unfold capRun; split <;> omega

theorem capRun_capRun (n : Nat) : capRun (capRun n) = capRun n := by
  by_cases h : 3 ≤ n
  · simp [capRun, h]
  · simp [capRun, h]

theorem collapse_collapse_len : ∀ (n : Nat) (s : List Char), s.length ≤ n →
    collapse (collapse s) = collapse s := by
  intro n
  induction n with
  | zero =>
    intro s hs
    have : s = [] := List.length_eq_zero.mp (Nat.le_zero.mp hs)
    subst this; rfl
  | succ m ih =>
    intro s hs
    cases s with
    | nil => rfl
    | cons c cs =>
      by_cases hc : c = '\n'
      · subst hc
        have hdec := replicate_nlRun_append_nlRest ('\n' :: cs)
        have hrun0 := nlRun_nlRest ('\n' :: cs)
        rw [← hdec, collapse_run _ _ hrun0,
          collapse_run _ _ (nlRun_collapse _ hrun0), capRun_capRun]
        congr 1
        apply ih
        have h1 : nlRest ('\n' :: cs) = nlRest cs := by simp [nlRest]
        rw [h1]
        exact Nat.le_trans (nlRest_length cs) (Nat.le_of_succ_le_succ hs)
      · rw [collapse_not_nl_cons c cs hc, collapse_not_nl_cons c _ hc]
        rw [ih cs (Nat.le_of_succ_le_succ hs)]

theorem collapse_collapse (s : List Char) : collapse (collapse s) = collapse s :=
  collapse_collapse_len s.length s (Nat.le_refl _)

theorem repl_append_headD (k : Nat) (h : 1 ≤ k) (X : List (List Char)) :
    (List.replicate k ([] : List Char) ++ X).headD [] = [] := by
  cases k with
  | zero => omega
  | succ j => simp [List.replicate_succ]

theorem repl_append_tail (k : Nat) (h : 1 ≤ k) (X : List (List Char)) :
    (List.replicate k ([] : List Char) ++ X).tail = List.replicate (k - 1) [] ++ X := by
  cases k with
  | zero => omega
  | succ j => simp [List.replicate_succ]

theorem splitNl_collapse_headD_tail : ∀ (n : Nat) (s : List Char), s.length ≤ n →
    (splitNl (collapse s)).headD [] = (splitNl s).headD [] ∧
    (∀ l ∈ (splitNl (collapse s)).tail, l ∈ (splitNl s).tail) := by
  intro n
  induction n with
  | zero =>
    intro s hs
    have : s = [] := List.length_eq_zero.mp (Nat.le_zero.mp hs)
    subst this
    exact ⟨rfl, fun l hl => hl⟩
  | succ m ih =>
    intro s hs
    cases s with
    | nil => exact ⟨rfl, fun l hl => hl⟩
    | cons c cs =>
      by_cases hc : c = '\n'
      · subst hc
        have hdec := replicate_nlRun_append_nlRest ('\n' :: cs)
        have hrun0 := nlRun_nlRest ('\n' :: cs)
        have hN : 1 ≤ nlRun ('\n' :: cs) := by simp [nlRun]
        have hRlen : (nlRest ('\n' :: cs)).length ≤ m := by
          have h1 : nlRest ('\n' :: cs) = nlRest cs := by simp [nlRest]
          rw [h1]
          exact Nat.le_trans (nlRest_length cs) (Nat.le_of_succ_le_succ hs)
        obtain ⟨ihH, ihT⟩ := ih (nlRest ('\n' :: cs)) hRlen
        rw [← hdec, collapse_run _ _ hrun0, splitNl_replicate_append,
          splitNl_replicate_append]
        constructor
        · rw [repl_append_headD _ (capRun_pos _ hN), repl_append_headD _ hN]
        · intro l hl
          rw [repl_append_tail _ (capRun_pos _ hN)] at hl
          rw [repl_append_tail _ hN]
          rcases List.mem_append.mp hl with hl1 | hl2
          · have hval : l = [] := List.eq_of_mem_replicate hl1
            have hk2 : capRun (nlRun ('\n' :: cs)) - 1 ≠ 0 :=
              (List.mem_replicate.mp hl1).1
            have hn2 : nlRun ('\n' :: cs) - 1 ≠ 0 := by
              have := capRun_le (nlRun ('\n' :: cs))
              omega
            exact List.mem_append_left _
              (List.mem_replicate.mpr ⟨hn2, hval⟩)
          · have hne := splitNl_ne_nil (collapse (nlRest ('\n' :: cs)))
            rw [← headD_cons_tail _ [] hne] at hl2
            rcases List.mem_cons.mp hl2 with rfl | hl3
            · rw [ihH]
              exact List.mem_append_right _
                (headD_mem _ [] (splitNl_ne_nil _))
            · exact List.mem_append_right _ (List.mem_of_mem_tail (ihT l hl3))
      · rw [collapse_not_nl_cons c cs hc]
        obtain ⟨ihH, ihT⟩ := ih cs (Nat.le_of_succ_le_succ hs)
        simp only [splitNl, if_neg hc]
        constructor
        · rw [consHead_headD, consHead_headD, ihH]
        · intro l hl
          rw [consHead_tail] at hl
          rw [consHead_tail]
          exact ihT l hl

theorem mem_splitNl_collapse {s l : List Char} (h : l ∈ splitNl (collapse s)) :
    l ∈ splitNl s := by
  obtain ⟨hH, hT⟩ := splitNl_collapse_headD_tail s.length s (Nat.le_refl _)
  have hne := splitNl_ne_nil (collapse s)
  rw [← headD_cons_tail (splitNl (collapse s)) [] hne] at h
  rcases List.mem_cons.mp h with rfl | h2
  · rw [hH]
    exact headD_mem _ [] (splitNl_ne_nil s)
  · exact List.mem_of_mem_tail (hT l h2)

theorem splitNl_no_nl_append (l cs : List Char) (h : '\n' ∉ l) :
    splitNl (l ++ cs) = (l ++ (splitNl cs).headD []) :: (splitNl cs).tail := by
  induction l with
  | nil =>
    simp only [List.nil_append]
    exact (headD_cons_tail _ [] (splitNl_ne_nil cs)).symm
  | cons c l' ih =>
    have hc : ¬ c = '\n' := fun hh => h (by rw [hh]; exact List.mem_cons_self _ _)
    rw [List.cons_append, splitNl_cons_not_nl c _ hc,
      ih (fun hh => h (List.mem_cons_of_mem c hh))]
    simp [consHead]

theorem splitNl_joinNl : ∀ (ls : List (List Char)), ls ≠ [] →
    (∀ l ∈ ls, '\n' ∉ l) → splitNl (joinNl ls) = ls
  | [], h, _ => absurd rfl h
  | [a], _, h => by
    have ha : '\n' ∉ a := h a (List.mem_cons_self _ _)
    show splitNl a = [a]
    have h2 := splitNl_no_nl_append a [] ha
    rw [List.append_nil] at h2
    rw [h2]
    simp [splitNl]
  | a :: b :: bs, _, h => by
    have ha : '\n' ∉ a := h a (List.mem_cons_self _ _)
    show splitNl (a ++ '\n' :: joinNl (b :: bs)) = a :: b :: bs
    rw [splitNl_no_nl_append a _ ha]
    have hsp : splitNl ('\n' :: joinNl (b :: bs)) = [] :: splitNl (joinNl (b :: bs)) := by
      simp [splitNl]
    rw [hsp]
    simp only [List.headD_cons, List.tail_cons]
    rw [splitNl_joinNl (b :: bs) (by simp) (fun l hl => h l (List.mem_cons_of_mem a hl))]
    simp

/-! ### Lemmas: archives and the metadata store -/

theorem true_ne_false : ¬ ((true : Bool) = false) := fun h => Bool.noConfusion h

theorem load_saveTemplateMetadata_self (name : String) (m : BrickMetadata)
    (st : FsState) :
    loadTemplateMetadata name (saveTemplateMetadata name m st) = some m := by
  simp [loadTemplateMetadata, saveTemplateMetadata, alookup_aset_self]

theorem load_addTemplateToStore (name n2 : String) (e : StoreEntry) (st : FsState) :
    loadTemplateMetadata name (addTemplateToStore n2 e st) =
      loadTemplateMetadata name st := rfl

theorem alookup_brick_createBrickArchive (dir : List (String × TEntry))
    (md : BrickMetadata) :
    alookup "brick.json" (createBrickArchive dir md) = some (.meta md) := by
  unfold createBrickArchive
  rw [alookup_append]
  have hnone : alookup "brick.json"
      ((dir.filter (fun e => e.1 ≠ "brick.json")).map
        (fun e => ("template/" ++ e.1, e.2))) = none := by
    apply alookup_of_forall_ne
    intro e he
    rcases List.mem_map.mp he with ⟨e', _, rfl⟩
    exact templatePre_ne_brick e'.1
  rw [hnone]
  simp [alookup]

theorem stripTemplate_createBrickArchive (dir : List (String × TEntry))
    (md : BrickMetadata) :
    stripTemplate (createBrickArchive dir md) =
      dir.filter (fun e => e.1 ≠ "brick.json") := by
  unfold stripTemplate createBrickArchive
  rw [List.filterMap_append]
  have hb : strStartsWith "brick.json" "template/" = false := by decide
  have h1 : List.filterMap
      (fun e => if strStartsWith e.1 "template/" then some (strDrop e.1 9, e.2) else none)
      [("brick.json", TEntry.meta md)] = [] := by
    simp [List.filterMap_cons, hb]
  rw [h1, List.append_nil, List.filterMap_map]
  have h2 : ((fun (e : String × TEntry) =>
        if strStartsWith e.1 "template/" then some (strDrop e.1 9, e.2) else none) ∘
      (fun (e : String × TEntry) => ("template/" ++ e.1, e.2))) =
      fun (e : String × TEntry) => some e := by
    funext e
    simp [Function.comp, strStartsWith_templatePre, strDrop_templatePre]
  rw [h2]
  exact List.filterMap_some _

theorem alookup_brick_filter_ne (l : List (String × TEntry)) :
    alookup "brick.json" (l.filter (fun e => e.1 ≠ "brick.json")) = none := by
  apply alookup_of_forall_ne
  intro e he
  exact of_decide_eq_true (List.mem_filter.mp he).2

theorem filter_ne_brick_idem (l : List (String × TEntry)) :
    (l.filter (fun e => e.1 ≠ "brick.json")).filter (fun e => e.1 ≠ "brick.json") =
      l.filter (fun e => e.1 ≠ "brick.json") := by
  rw [List.filter_filter]
  congr 1
  funext e
  rw [Bool.and_self]

theorem filter_brick_aset_brick_of_none (v : TEntry) (l : List (String × TEntry))
    (h : alookup "brick.json" l = none) :
    (aset "brick.json" v l).filter (fun e => e.1 ≠ "brick.json") =
      l.filter (fun e => e.1 ≠ "brick.json") := by
  rw [aset_of_alookup_none v h, List.filter_append]
  simp [List.filter]

/-! ### Lemmas: command reductions -/

theorem collapse_nil : collapse [] = [] := rfl

theorem cleanFileContent_cleaned (d : List Char → Bool) (content : List Char) :
    (cleanFileContent d content).cleaned =
      collapse (joinNl ((splitNl content).filter (fun l => !(d l)))) := rfl

theorem cleanFileContent_removed (d : List Char → Bool) (content : List Char) :
    (cleanFileContent d content).removedCount =
      ((splitNl content).filter (fun l => d l)).length := rfl

theorem cleanFileContent_nil_cleaned (d : List Char → Bool) :
    (cleanFileContent d []).cleaned = [] := by
  rw [cleanFileContent_cleaned]
  cases h : d [] with
  | true =>
    rw [show splitNl ([] : List Char) = [[]] from rfl, List.filter_cons]
    simp [h]
    rfl
  | false =>
    rw [show splitNl ([] : List Char) = [[]] from rfl, List.filter_cons]
    simp [h]
    rfl

theorem importCommand_reduce (st : FsState) (root : String)
    (archive : List (String × TEntry)) (opts : ImportOptions)
    (prompts : ImportPrompts) (now base : String) (metadata : BrickMetadata)
    (templateName : String)
    (hinit : st.initialized = true)
    (hmeta : alookup "brick.json" archive = some (.meta metadata))
    (hname : importNameStep st opts prompts metadata.name = some templateName) :
    importCommand st root archive opts prompts now base =
      importFinish st root archive metadata templateName now base := by
  unfold importCommand
  rw [hinit, if_neg true_ne_false]
  simp only [hmeta]
  simp only [hname]

theorem saveCommand_reduce (st : FsState) (name sourcePath : String) (tree : FsTree)
    (opts : SaveOptions) (prompts : SavePrompts)
    (fgInc fgExc detectedDeps : List String) (now : String) (st1 : FsState)
    (deps : List String) (description : String)
    (hinit : st.initialized = true)
    (how : saveOverwriteStep st name prompts.overwrite = some st1)
    (hne : ¬ (selectFiles tree opts fgInc fgExc = []))
    (hdeps : saveDepsStep opts prompts.addDeps detectedDeps = some deps)
    (hdesc : saveDescriptionStep opts prompts.descriptionText = some description) :
    saveCommand st name sourcePath tree opts prompts fgInc fgExc detectedDeps now =
      saveFinish st1 name sourcePath tree opts deps description fgInc fgExc now := by
  unfold saveCommand
  rw [hinit, if_neg true_ne_false]
  simp only [how]
  rw [if_neg hne]
  simp only [hdeps]
  simp only [hdesc]

theorem importDirNew_createBrickArchive (dir : List (String × TEntry))
    (md : BrickMetadata) :
    (if stripTemplate (createBrickArchive dir md) ≠ [] then
        stripTemplate (createBrickArchive dir md)
     else (createBrickArchive dir md).filter (fun e => e.1 ≠ "brick.json")) =
      dir.filter (fun e => e.1 ≠ "brick.json") := by
  rw [stripTemplate_createBrickArchive]
  split
  · rfl
  · rename_i hcond
    have h2 := of_not_not hcond
    rw [h2]
    unfold createBrickArchive
    rw [h2]
    simp [List.filter]

/-! ### Claim theorems -/

/-- C1: the spec requires prompt cancellation to abort with all persisted
state unchanged, in particular leaving the pre-existing template's storage
directory intact when a later prompt of `saveCommand` is cancelled after an
overwrite was confirmed.  The code violates this: `fs.remove(existingPath)`
runs immediately on the confirmed overwrite (save section, line 451), before
the dependency and description prompts, so cancelling the description prompt
reports cancellation while the `demo` storage directory (metadata included)
is already deleted and the registry still lists `demo`. -/
theorem c1_cancel_after_overwrite_mutates :
    (saveCommand stDemo "demo" "/src" trOne ⟨none, none, none, none, false⟩
        ⟨.val true, .val true, .cancel⟩ [] [] [] "t1").2 = .cancelled ∧
    alookup "demo"
      (saveCommand stDemo "demo" "/src" trOne ⟨none, none, none, none, false⟩
        ⟨.val true, .val true, .cancel⟩ [] [] [] "t1").1.templates = none ∧
    alookup "demo" stDemo.templates ≠ none := by
  decide

/-- C4: `saveCommand` writes the relative storage path `templates/<name>` into
its registry entry (save section, line 600), but `importCommand` writes the
absolute storage path returned by `getTemplatePath` (import section, line 775,
`path: templateDir`), not the relative `templates/<name>` form that the
registry documents; evaluated at root `/home/u/.codebrick`. -/
theorem c4_registry_path_forms :
    (alookup "demo"
        (saveCommand stEmpty "demo" "/src" trOne ⟨some "d", none, none, none, false⟩
          ⟨.val true, .val true, .val ""⟩ [] [] [] "t1").1.registry).map storePath =
      some "templates/demo" ∧
    (alookup "demo2"
        (importCommand stEmpty "/home/u/.codebrick"
          (createBrickArchive [("brick.json", .meta mdDemo), ("a.ts", .data ['x'])] mdDemo)
          ⟨some "demo2", false⟩ ⟨.val true, .cancel⟩ "t2" "demo.brick").1.registry).map storePath =
      some "/home/u/.codebrick/templates/demo2" ∧
    "/home/u/.codebrick/templates/demo2" ≠ "templates/demo2" := by
  decide

/-- C6: for every storage directory and loaded metadata, the archive built by
`createBrickArchive` contains exactly one root entry named `brick.json`,
holding the serialized metadata; every other entry is a file of the storage
directory other than the top-level `brick.json`, placed under the `template/`
prefix; and every such file of the directory appears there. -/
theorem c6_archive_shape (dir : List (String × TEntry)) (md : BrickMetadata) :
    (createBrickArchive dir md).filter (fun e => e.1 = "brick.json") =
      [("brick.json", .meta md)] ∧
    (∀ e ∈ createBrickArchive dir md, e.1 ≠ "brick.json" →
      ∃ p c, (p, c) ∈ dir ∧ p ≠ "brick.json" ∧ e = ("template/" ++ p, c)) ∧
    (∀ p c, (p, c) ∈ dir → p ≠ "brick.json" →
      ("template/" ++ p, c) ∈ createBrickArchive dir md) := by
  refine ⟨?_, ?_, ?_⟩
  · unfold createBrickArchive
    rw [List.filter_append]
    have h1 : ((dir.filter (fun e => e.1 ≠ "brick.json")).map
        (fun e => ("template/" ++ e.1, e.2))).filter (fun e => e.1 = "brick.json") = [] := by
      rw [List.filter_eq_nil_iff]
      intro e he
      rcases List.mem_map.mp he with ⟨e', _, rfl⟩
      simp [templatePre_ne_brick e'.1]
    rw [h1, List.nil_append]
    simp [List.filter]
  · intro e he hne
    unfold createBrickArchive at he
    rcases List.mem_append.mp he with h1 | h1
    · rcases List.mem_map.mp h1 with ⟨e', he', rfl⟩
      rcases List.mem_filter.mp he' with ⟨hmem, hval⟩
      exact ⟨e'.1, e'.2, hmem, of_decide_eq_true hval, rfl⟩
    · rw [List.mem_singleton] at h1
      rw [h1] at hne
      exact absurd rfl hne
  · intro p c hmem hne
    unfold createBrickArchive
    apply List.mem_append_left
    exact List.mem_map.mpr ⟨(p, c), List.mem_filter.mpr ⟨hmem, by simp [hne]⟩, rfl⟩

/-- Witness for C6 at a concrete one-file directory. -/
theorem c6_archive_shape_witness :
    (createBrickArchive [("a.ts", .data ['x']), ("brick.json", .meta mdDemo)]
        mdDemo).filter (fun e => e.1 = "brick.json") =
      [("brick.json", .meta mdDemo)] ∧
    ("template/a.ts", TEntry.data ['x']) ∈
      createBrickArchive [("a.ts", .data ['x']), ("brick.json", .meta mdDemo)] mdDemo := by
  refine ⟨(c6_archive_shape _ mdDemo).1, ?_⟩
  have h := (c6_archive_shape [("a.ts", .data ['x']), ("brick.json", .meta mdDemo)]
    mdDemo).2.2 "a.ts" (.data ['x']) (by decide) (by decide)
  exact h

/-- C7: when the extracted archive has no `brick.json` entry at its root,
`importCommand` fails with the invalid-archive error and leaves the whole
persisted state (registry, metadata store, templates directory) unchanged:
the result is exactly the input state. -/
theorem c7_missing_metadata_aborts (st : FsState) (root : String)
    (archive : List (String × TEntry)) (opts : ImportOptions)
    (prompts : ImportPrompts) (now base : String)
    (hinit : st.initialized = true)
    (h : alookup "brick.json" archive = none) :
    importCommand st root archive opts prompts now base =
      (st, .errored "Invalid .brick file: missing brick.json metadata") := by
  unfold importCommand
  rw [hinit, if_neg true_ne_false, h]

/-- Witness for C7 at a concrete archive holding only a template file. -/
theorem c7_missing_metadata_aborts_witness :
    importCommand stEmpty "/home/u/.codebrick" [("template/a.ts", .data ['x'])]
        ⟨none, false⟩ ⟨.val true, .cancel⟩ "t2" "x.brick" =
      (stEmpty, .errored "Invalid .brick file: missing brick.json metadata") :=
  c7_missing_metadata_aborts stEmpty "/home/u/.codebrick"
    [("template/a.ts", .data ['x'])] ⟨none, false⟩ ⟨.val true, .cancel⟩ "t2" "x.brick"
    (by decide) (by decide)

/-- C8: a `cleanCommand` run, on whichever path it completes, leaves every
metadata field of the template except `updatedAt` exactly as loaded before the
run: the stored metadata afterwards is the prior record with at most
`updatedAt` replaced (clean.ts 364-366 mutate only `updatedAt` before
`saveTemplateMetadata`). -/
theorem c8_clean_updates_only_updatedAt (st : FsState) (inp : String)
    (opts : CleanOptions) (decider : String → Option (List Char → Bool))
    (confirmRes : PRes Bool) (now : String) (name : String) (md : BrickMetadata)
    (hres : resolveTemplateName inp st = some name)
    (hload : loadTemplateMetadata name st = some md) :
    ∃ t, loadTemplateMetadata name
        (cleanCommand st inp opts decider confirmRes now).1 =
      some { md with updatedAt := t } := by
  unfold cleanCommand
  simp only [hres, hload]
  repeat' split
  all_goals first
    | exact ⟨now, load_saveTemplateMetadata_self _ _ _⟩
    | exact ⟨md.updatedAt, hload⟩

/-- Witness for C8 at a concrete run that rewrites one file. -/
theorem c8_clean_updates_only_updatedAt_witness :
    ∃ t, loadTemplateMetadata "demo"
        (cleanCommand stClean "demo" ⟨none, false, true⟩ deciderDemo
          (.val true) "t9").1 =
      some { mdDemo with updatedAt := t } := by
  exact c8_clean_updates_only_updatedAt stClean "demo" ⟨none, false, true⟩
    deciderDemo (.val true) "t9" "demo" mdDemo (by decide) (by decide)

/-- C9: with `--dry-run`, `cleanCommand` performs no filesystem write at all:
the resulting persisted state is precisely the input state, however many
cleanable imports the analysis found (clean.ts 324-328 return before the
rewrite loop and the metadata write). -/
theorem c9_dry_run_no_write (st : FsState) (inp : String) (opts : CleanOptions)
    (decider : String → Option (List Char → Bool)) (confirmRes : PRes Bool)
    (now : String) (hdry : opts.dryRun = true) :
    (cleanCommand st inp opts decider confirmRes now).1 = st := by
  unfold cleanCommand
  repeat' split
  all_goals first
    | rfl
    | exact absurd hdry (by assumption)

/-- Witness for C9 at a concrete state with a cleanable file. -/
theorem c9_dry_run_no_write_witness :
    (cleanCommand stClean "demo" ⟨none, true, true⟩ deciderDemo
        (.val true) "t9").1 = stClean :=
  c9_dry_run_no_write stClean "demo" ⟨none, true, true⟩ deciderDemo
    (.val true) "t9" (by decide)

/-- C10 counterexample: with the decision the code builds for a custom
pattern `^` (a valid regex whose `test` accepts every line, including the
empty line) and content `x`, the first application removes the only line and
returns cleaned content `""` with removedCount 1; re-applying to that output
returns removedCount 1 again, not 0, because splitting `""` yields one empty
line which the pattern removes once more.  So `cleanFileContent` is not
idempotent as claimed. -/
theorem c10_counterexample :
    cleanFileContent
        (shouldRemoveLine ⟨some (fun _ => true), none, [], fun _ => false, true⟩)
        ((cleanFileContent
          (shouldRemoveLine ⟨some (fun _ => true), none, [], fun _ => false, true⟩)
          ['x']).cleaned) ≠
      { cleaned := (cleanFileContent
          (shouldRemoveLine ⟨some (fun _ => true), none, [], fun _ => false, true⟩)
          ['x']).cleaned
        removedCount := 0 } := by
  decide

/-- C10 amended: the cleaned content is a fixed point (re-applying
`cleanFileContent` with the same arguments returns the same cleaned string),
and the second application reports removedCount 0 except in the one corner
the counterexample exhibits: when the per-line decision removes the empty
line and the first pass removed every line (so the cleaned output is empty),
the second pass removes the single empty line of the empty content again. -/
theorem c10_reapply_amended (d : List Char → Bool) (content : List Char) :
    (cleanFileContent d (cleanFileContent d content).cleaned).cleaned =
      (cleanFileContent d content).cleaned ∧
    (d [] = false ∨ (cleanFileContent d content).cleaned ≠ [] →
      (cleanFileContent d (cleanFileContent d content).cleaned).removedCount = 0) := by
  have hkept : ∀ l ∈ (splitNl content).filter (fun l => !(d l)), '\n' ∉ l :=
    fun l hl => splitNl_no_nl content l (List.mem_filter.mp hl).1
  have hkeptd : ∀ l ∈ (splitNl content).filter (fun l => !(d l)), d l = false := by
    intro l hl
    have h2 := (List.mem_filter.mp hl).2
    simpa using h2
  by_cases hk : (splitNl content).filter (fun l => !(d l)) = []
  · have hc1 : (cleanFileContent d content).cleaned = [] := by
      rw [cleanFileContent_cleaned, hk]
      rfl
    constructor
    · rw [hc1, cleanFileContent_nil_cleaned]
    · intro hor
      rcases hor with hd | hne
      · rw [hc1, cleanFileContent_removed,
          show splitNl ([] : List Char) = [[]] from rfl, List.filter_cons]
        simp [hd]
      · exact absurd hc1 hne
  · have hforall : ∀ l ∈ splitNl (cleanFileContent d content).cleaned, d l = false := by
      intro l hl
      rw [cleanFileContent_cleaned] at hl
      have h1 : l ∈ splitNl (joinNl ((splitNl content).filter (fun l => !(d l)))) :=
        mem_splitNl_collapse hl
      rw [splitNl_joinNl _ hk hkept] at h1
      exact hkeptd l h1
    constructor
    · rw [cleanFileContent_cleaned,
        List.filter_eq_self.mpr (fun l hl => by simp [hforall l hl]),
        joinNl_splitNl, cleanFileContent_cleaned, collapse_collapse]
    · intro _
      rw [cleanFileContent_removed,
        List.filter_eq_nil_iff.mpr (fun l hl => by simp [hforall l hl])]
      rfl

/-- Witness for C10 amended at a concrete decision (remove exactly the line
`i`) and content with one removable and one kept line. -/
theorem c10_reapply_amended_witness :
    (cleanFileContent (fun l => decide (l = ['i']))
        ((cleanFileContent (fun l => decide (l = ['i']))
          ['i', '\n', 'c']).cleaned)).cleaned =
      (cleanFileContent (fun l => decide (l = ['i'])) ['i', '\n', 'c']).cleaned ∧
    (cleanFileContent (fun l => decide (l = ['i']))
        ((cleanFileContent (fun l => decide (l = ['i']))
          ['i', '\n', 'c']).cleaned)).removedCount = 0 := by
  refine ⟨(c10_reapply_amended (fun l => decide (l = ['i'])) ['i', '\n', 'c']).1,
    (c10_reapply_amended (fun l => decide (l = ['i'])) ['i', '\n', 'c']).2
      (Or.inl (by decide))⟩

/-- C2: exporting a local template whose storage directory matches its
metadata and importing the produced archive under a fresh name succeeds and
yields a template whose `files` manifest equals the original's and whose
storage directory holds exactly the original's files (identical paths and
contents), besides the rewritten `brick.json`.  The export side is
`createBrickArchive` applied to the storage directory and loaded metadata, as
`exportCommand` does after its resolution and local-type checks (reflected in
the hypotheses). -/
theorem c2_export_import_roundtrip (st : FsState) (orig fresh root now base : String)
    (dir : List (String × TEntry)) (md : BrickMetadata) (prompts : ImportPrompts)
    (hinit : st.initialized = true)
    (_hloc : ∃ p d tg c u, getTemplate orig st = some (.localTemplate p d tg c u))
    (_hdir : alookup orig st.templates = some dir)
    (_hmd : alookup "brick.json" dir = some (.meta md))
    (hmatch : (dir.filter (fun e => e.1 ≠ "brick.json")).map Prod.fst = md.files)
    (hfresh : alookup fresh st.registry = none) :
    (importCommand st root (createBrickArchive dir md) ⟨some fresh, false⟩
        prompts now base).2 = .success ∧
    loadTemplateMetadata fresh (importCommand st root (createBrickArchive dir md)
        ⟨some fresh, false⟩ prompts now base).1 =
      some { md with
        name := fresh, updatedAt := now
        source := { origin := "local", path := "imported from " ++ base } } ∧
    ((alookup fresh (importCommand st root (createBrickArchive dir md)
        ⟨some fresh, false⟩ prompts now base).1.templates).getD []).filter
        (fun e => e.1 ≠ "brick.json") = dir.filter (fun e => e.1 ≠ "brick.json") ∧
    (((alookup fresh (importCommand st root (createBrickArchive dir md)
        ⟨some fresh, false⟩ prompts now base).1.templates).getD []).filter
        (fun e => e.1 ≠ "brick.json")).map Prod.fst = md.files := by
  have hstep : importNameStep st ⟨some fresh, false⟩ prompts md.name = some fresh := by
    unfold importNameStep
    simp [templateExists, hfresh]
  rw [importCommand_reduce st root (createBrickArchive dir md) ⟨some fresh, false⟩
    prompts now base md fresh hinit (alookup_brick_createBrickArchive dir md) hstep]
  refine ⟨rfl, ?_, ?_, ?_⟩
  · exact (load_addTemplateToStore fresh fresh _ _).trans
      (load_saveTemplateMetadata_self _ _ _)
  · show ((alookup fresh (saveTemplateMetadata fresh _ _).templates).getD
        []).filter (fun e => e.1 ≠ "brick.json") = _
    unfold saveTemplateMetadata
    rw [show ∀ (X : List (String × TEntry)) (Y : List (String ×
        List (String × TEntry))),
        ({ st with templates := aset fresh X Y } : FsState).templates =
          aset fresh X Y from fun X Y => rfl]
    rw [alookup_aset_self, alookup_aset_self]
    show (aset "brick.json" _ ((if stripTemplate (createBrickArchive dir md) ≠ []
        then stripTemplate (createBrickArchive dir md)
        else (createBrickArchive dir md).filter
          (fun e => e.1 ≠ "brick.json")))).filter (fun e => e.1 ≠ "brick.json") = _
    rw [importDirNew_createBrickArchive]
    rw [filter_brick_aset_brick_of_none _ _ (alookup_brick_filter_ne dir)]
    exact filter_ne_brick_idem dir
  · show (((alookup fresh (saveTemplateMetadata fresh _ _).templates).getD
        []).filter (fun e => e.1 ≠ "brick.json")).map Prod.fst = _
    unfold saveTemplateMetadata
    rw [show ∀ (X : List (String × TEntry)) (Y : List (String ×
        List (String × TEntry))),
        ({ st with templates := aset fresh X Y } : FsState).templates =
          aset fresh X Y from fun X Y => rfl]
    rw [alookup_aset_self, alookup_aset_self]
    show ((aset "brick.json" _ ((if stripTemplate (createBrickArchive dir md) ≠ []
        then stripTemplate (createBrickArchive dir md)
        else (createBrickArchive dir md).filter
          (fun e => e.1 ≠ "brick.json")))).filter
        (fun e => e.1 ≠ "brick.json")).map Prod.fst = _
    rw [importDirNew_createBrickArchive]
    rw [filter_brick_aset_brick_of_none _ _ (alookup_brick_filter_ne dir)]
    rw [filter_ne_brick_idem dir]
    exact hmatch

/-- Witness for C2: export the `demo` template of `stDemo` and re-import it as
`copy`. -/
theorem c2_export_import_roundtrip_witness :
    (importCommand stDemo "/home/u/.codebrick"
        (createBrickArchive [("brick.json", .meta mdDemo), ("a.ts", .data ['x'])] mdDemo)
        ⟨some "copy", false⟩ ⟨.val true, .cancel⟩ "t2" "demo.brick").2 = .success ∧
    loadTemplateMetadata "copy" (importCommand stDemo "/home/u/.codebrick"
        (createBrickArchive [("brick.json", .meta mdDemo), ("a.ts", .data ['x'])] mdDemo)
        ⟨some "copy", false⟩ ⟨.val true, .cancel⟩ "t2" "demo.brick").1 =
      some { mdDemo with
        name := "copy", updatedAt := "t2"
        source := { origin := "local", path := "imported from " ++ "demo.brick" } } ∧
    ((alookup "copy" (importCommand stDemo "/home/u/.codebrick"
        (createBrickArchive [("brick.json", .meta mdDemo), ("a.ts", .data ['x'])] mdDemo)
        ⟨some "copy", false⟩ ⟨.val true, .cancel⟩ "t2" "demo.brick").1.templates).getD
        []).filter (fun e => e.1 ≠ "brick.json") =
      [("brick.json", .meta mdDemo), ("a.ts", .data ['x'])].filter
        (fun e => e.1 ≠ "brick.json") ∧
    (((alookup "copy" (importCommand stDemo "/home/u/.codebrick"
        (createBrickArchive [("brick.json", .meta mdDemo), ("a.ts", .data ['x'])] mdDemo)
        ⟨some "copy", false⟩ ⟨.val true, .cancel⟩ "t2" "demo.brick").1.templates).getD
        []).filter (fun e => e.1 ≠ "brick.json")).map Prod.fst = mdDemo.files := by
  exact c2_export_import_roundtrip stDemo "demo" "copy" "/home/u/.codebrick" "t2"
    "demo.brick" [("brick.json", .meta mdDemo), ("a.ts", .data ['x'])] mdDemo
    ⟨.val true, .cancel⟩ (by decide)
    ⟨"templates/demo", "", [], "t0", "t0", by decide⟩
    (by decide) (by decide) (by decide) (by decide)

/-- C3 counterexample: with `--include`, the file list is the glob
collaborator's output order, which the code does not re-sort (save section,
460-464): a successful save whose glob oracle returned `["b.ts", "a.ts"]`
writes exactly that unsorted list into the metadata `files`, refuting the
claim that the written list is always lexicographically sorted. -/
theorem c3_counterexample :
    (saveCommand stEmpty "t" "/src" trTwo ⟨some "d", none, some "*.ts", none, false⟩
        ⟨.val true, .val true, .val ""⟩ ["b.ts", "a.ts"] [] [] "t1").2 = .success ∧
    (loadTemplateMetadata "t"
        (saveCommand stEmpty "t" "/src" trTwo ⟨some "d", none, some "*.ts", none, false⟩
          ⟨.val true, .val true, .val ""⟩ ["b.ts", "a.ts"] [] [] "t1").1).map
        (fun m => m.files) = some ["b.ts", "a.ts"] ∧
    isSortedStr ["b.ts", "a.ts"] = false := by
  decide

/-- C3 amended: for every save that runs to completion (hypotheses: prompts
answered, nonempty selection, all selected files copied), the metadata
`files` list equals the selected file list, which is exactly what the copy
loop copied: every selected path other than the metadata file name
`brick.json` is present in the storage directory with its source content.
The list is lexicographically sorted when `--include` is not supplied
(`getFilesRecursive` sorts and the `--exclude` filter preserves order); with
`--include` it is the glob collaborator's output order, copied verbatim. -/
theorem c3_files_manifest_amended (st : FsState) (name sourcePath : String)
    (tree : FsTree) (opts : SaveOptions) (prompts : SavePrompts)
    (fgInc fgExc detectedDeps : List String) (now : String) (st1 : FsState)
    (deps : List String) (description : String)
    (hinit : st.initialized = true)
    (how : saveOverwriteStep st name prompts.overwrite = some st1)
    (hne : ¬ (selectFiles tree opts fgInc fgExc = []))
    (hdeps : saveDepsStep opts prompts.addDeps detectedDeps = some deps)
    (hdesc : saveDescriptionStep opts prompts.descriptionText = some description)
    (hcopy : ¬ ((copyAll tree (selectFiles tree opts fgInc fgExc)
        ((alookup name st1.templates).getD [])).2 = false)) :
    ∃ md', loadTemplateMetadata name (saveCommand st name sourcePath tree opts
        prompts fgInc fgExc detectedDeps now).1 = some md' ∧
      md'.files = selectFiles tree opts fgInc fgExc ∧
      (∀ f ∈ md'.files, f ≠ "brick.json" →
        ∃ c, lookupPath tree f = some c ∧
          alookup f ((alookup name (saveCommand st name sourcePath tree opts
            prompts fgInc fgExc detectedDeps now).1.templates).getD []) =
            some (.data c)) ∧
      (opts.includeGlob = none → isSortedStr md'.files = true) := by
  rw [saveCommand_reduce st name sourcePath tree opts prompts fgInc fgExc
    detectedDeps now st1 deps description hinit how hne hdeps hdesc]
  unfold saveFinish
  rw [if_neg hcopy]
  have hcopy2 : (copyAll tree (selectFiles tree opts fgInc fgExc)
      ((alookup name st1.templates).getD [])).2 = true := by
    revert hcopy
    cases (copyAll tree (selectFiles tree opts fgInc fgExc)
      ((alookup name st1.templates).getD [])).2 <;> simp
  refine ⟨saveMetadataOf name sourcePath (selectFiles tree opts fgInc fgExc)
    description (parseTags opts.tags) deps now, ?_, rfl, ?_, ?_⟩
  · exact (load_addTemplateToStore name name _ _).trans
      (load_saveTemplateMetadata_self _ _ _)
  · intro f hf hfb
    have hlook : alookup name (addTemplateToStore name
        (.localTemplate ("templates/" ++ name) description (parseTags opts.tags) now now)
        (saveTemplateMetadata name
          (saveMetadataOf name sourcePath (selectFiles tree opts fgInc fgExc)
            description (parseTags opts.tags) deps now)
          { st1 with templates := (aset name
              (copyAll tree (selectFiles tree opts fgInc fgExc)
                ((alookup name st1.templates).getD [])).1 st1.templates) })).templates =
        some (aset "brick.json"
          (.meta (saveMetadataOf name sourcePath (selectFiles tree opts fgInc fgExc)
            description (parseTags opts.tags) deps now))
          (copyAll tree (selectFiles tree opts fgInc fgExc)
            ((alookup name st1.templates).getD [])).1) := by
      show alookup name (saveTemplateMetadata name _ _).templates = _
      unfold saveTemplateMetadata
      rw [show ∀ (X : List (String × TEntry)) (Y : List (String ×
          List (String × TEntry))),
          ({ st1 with templates := aset name X Y } : FsState).templates =
            aset name X Y from fun X Y => rfl]
      rw [alookup_aset_self, alookup_aset_self]
      rfl
    rw [hlook]
    obtain ⟨c, hc1, hc2⟩ := copyAll_lookup tree (selectFiles tree opts fgInc fgExc)
      ((alookup name st1.templates).getD []) hcopy2 f hf
    exact ⟨c, hc1, by
      show alookup f (aset "brick.json" _ _) = _
      rw [alookup_aset_ne hfb, hc2]⟩
  · intro hinc
    exact selectFiles_sorted tree opts fgInc fgExc hinc

/-- Witness for C3 amended at a concrete two-level source tree without
`--include`: the manifest comes out sorted. -/
theorem c3_files_manifest_amended_witness :
    ∃ md', loadTemplateMetadata "t" (saveCommand stEmpty "t" "/src" trSub
        ⟨some "d", none, none, none, false⟩ ⟨.val true, .val true, .val ""⟩
        [] [] [] "t1").1 = some md' ∧
      md'.files = ["a.ts", "sub/b.ts"] ∧ isSortedStr md'.files = true := by
  obtain ⟨md', h1, h2, _, h4⟩ := c3_files_manifest_amended stEmpty "t" "/src" trSub
    ⟨some "d", none, none, none, false⟩ ⟨.val true, .val true, .val ""⟩ [] [] []
    "t1" stEmpty [] "d" (by decide) (by decide) (by decide) (by decide)
    (by decide) (by decide)
  exact ⟨md', h1, h2.trans (by decide), h4 rfl⟩

/-- C5 counterexample: `saveCommand` performs no validation of the template
name: saving under the name `bad name` (which contains a space, outside
`[A-Za-z0-9_-]+`) succeeds and records a registry entry under that very name,
refuting the claim. -/
theorem c5_counterexample :
    (saveCommand stEmpty "bad name" "/src" trOne ⟨some "d", none, none, none, false⟩
        ⟨.val true, .val true, .val ""⟩ [] [] [] "t1").2 = .success ∧
    (alookup "bad name"
        (saveCommand stEmpty "bad name" "/src" trOne ⟨some "d", none, none, none, false⟩
          ⟨.val true, .val true, .val ""⟩ [] [] [] "t1").1.registry).isSome = true ∧
    matchesNamePattern "bad name" = false := by
  decide

/-- C5 amended: `saveCommand` records the template under the supplied name
verbatim, whatever its characters — a save that runs to completion always
writes a registry entry keyed by exactly that name; the pattern
`[A-Za-z0-9_-]+` is enforced only by the `validate` callback of
`importCommand`'s rename prompt, which accepts exactly the strings matching
the pattern. -/
theorem c5_name_validation_amended (st : FsState) (name sourcePath : String)
    (tree : FsTree) (opts : SaveOptions) (prompts : SavePrompts)
    (fgInc fgExc detectedDeps : List String) (now : String) (st1 : FsState)
    (deps : List String) (description : String) (v : String)
    (hinit : st.initialized = true)
    (how : saveOverwriteStep st name prompts.overwrite = some st1)
    (hne : ¬ (selectFiles tree opts fgInc fgExc = []))
    (hdeps : saveDepsStep opts prompts.addDeps detectedDeps = some deps)
    (hdesc : saveDescriptionStep opts prompts.descriptionText = some description)
    (hcopy : ¬ ((copyAll tree (selectFiles tree opts fgInc fgExc)
        ((alookup name st1.templates).getD [])).2 = false)) :
    alookup name (saveCommand st name sourcePath tree opts prompts fgInc fgExc
        detectedDeps now).1.registry =
      some (.localTemplate ("templates/" ++ name) description
        (parseTags opts.tags) now now) ∧
    (importNameValidator v = none ↔ matchesNamePattern v = true) := by
  constructor
  · rw [saveCommand_reduce st name sourcePath tree opts prompts fgInc fgExc
      detectedDeps now st1 deps description hinit how hne hdeps hdesc]
    unfold saveFinish
    rw [if_neg hcopy]
    exact alookup_aset_self name _ _
  · constructor
    · intro hnone
      unfold importNameValidator at hnone
      by_cases h0 : v = ""
      · rw [if_pos h0] at hnone
        exact absurd hnone (by simp)
      · rw [if_neg h0] at hnone
        by_cases h1 : matchesNamePattern v = true
        · exact h1
        · have h2 : matchesNamePattern v = false := by
            revert h1
            cases matchesNamePattern v <;> simp
          rw [if_pos (by simp [h2])] at hnone
          exact absurd hnone (by simp)
    · intro hmatch
      unfold importNameValidator
      have h0 : ¬ (v = "") := by
        intro h
        rw [h] at hmatch
        exact absurd hmatch (by decide)
      rw [if_neg h0, if_neg (by simp [hmatch])]

/-- Witness for C5 amended: a save under the valid name `ok` and the
validator's verdict on `my-name`. -/
theorem c5_name_validation_amended_witness :
    alookup "ok" (saveCommand stEmpty "ok" "/src" trOne
        ⟨some "d", none, none, none, false⟩ ⟨.val true, .val true, .val ""⟩
        [] [] [] "t1").1.registry =
      some (.localTemplate "templates/ok" "d" [] "t1" "t1") ∧
    (importNameValidator "my-name" = none ↔ matchesNamePattern "my-name" = true) := by
  have h := c5_name_validation_amended stEmpty "ok" "/src" trOne
    ⟨some "d", none, none, none, false⟩ ⟨.val true, .val true, .val ""⟩ [] [] []
    "t1" stEmpty [] "d" "my-name" (by decide) (by decide) (by decide) (by decide)
    (by decide) (by decide)
  exact ⟨h.1.trans (by decide), h.2⟩

end CodeBrick
